import Mathlib

/-!
Verification development for the voice financial assistant repository.

The Python sources are shallowly embedded: text is modelled as `List Char`,
Python `float` values as `ℚ` (all amounts in this program are finite decimal
fractions), and fallible operations (the `datetime` constructor, `float(...)`)
as `Option`/`Except`.  Each regular expression in the source is hand-compiled
to an executable matcher over `List Char` with the same alternation order,
greediness and word-boundary semantics; the matchers compare characters
case-insensitively, which is equivalent to the source's combination of
lowercasing and `re.IGNORECASE`.  All definitions use structural recursion
(with explicit fuel where the Python loop skips ahead), so every concrete
instance evaluates by `decide`.
-/

/-- ASCII word character, as in the `\w`/`\b` semantics of Python `re`
over ASCII text. -/
def isWordChar (c : Char) : Bool := c.isAlphanum || c == '_'

/-- A word boundary exists before the current position when the previous
character (if any) is not a word character; all embedded patterns start
their boundary check on a word character. -/
def boundaryOk (prev : Option Char) : Bool :=
  match prev with
  | none => true
  | some c => !isWordChar c

/-- Code point of `c` with ASCII upper-case letters mapped to lower case. -/
def lowN (c : Char) : Nat :=
  if 65 ≤ c.toNat && c.toNat ≤ 90 then c.toNat + 32 else c.toNat

/-- Case-insensitive character comparison (ASCII). -/
def ciEq (c d : Char) : Bool := lowN c == lowN d

/-- Case-insensitive prefix test; returns the remainder after the prefix. -/
def stripCI : List Char → List Char → Option (List Char)
  | [], l => some l
  | _ :: _, [] => none
  | w :: ws, c :: cs => if ciEq w c then stripCI ws cs else none

/-- Decimal digit test (ASCII), as `\d` over ASCII text. -/
def isDig (c : Char) : Bool := 48 ≤ c.toNat && c.toNat ≤ 57

/-- Value of a decimal digit character. -/
def digVal (c : Char) : Nat := c.toNat - 48

/-- Character for a decimal digit. -/
def digitChar (n : Nat) : Char := Char.ofNat (48 + n)

/-- Longest digit prefix of a character list, with the remainder. -/
def spanDigits : List Char → List Char × List Char
  | [] => ([], [])
  | c :: cs =>
    if isDig c then
      let (d, r) := spanDigits cs
      (c :: d, r)
    else ([], c :: cs)

/-- Numeric value of a digit list read most-significant first. -/
def digitsVal : List Char → Nat → Nat
  | [], acc => acc
  | c :: cs, acc => digitsVal cs (10 * acc + digVal c)

/-- Decimal digit characters of `n`, most significant first, prepended to
`acc`; `fuel` bounds the recursion and `n + 1` always suffices. -/
def natCharsAux : Nat → Nat → List Char → List Char
  | 0, _, acc => acc
  | fuel + 1, n, acc =>
    if n < 10 then digitChar n :: acc
    else natCharsAux fuel (n / 10) (digitChar (n % 10) :: acc)

/-- Decimal digit characters of `n`, most significant first. -/
def natChars (n : Nat) : List Char := natCharsAux (n + 1) n []

/-- Left-pad a character list with `'0'` up to width `k`
(the `%Y`/`%m`/`%d` zero padding of `strftime`). -/
def padZero (k : Nat) (l : List Char) : List Char :=
  List.replicate (k - l.length) '0' ++ l

/-- Consume a maximal run of decimal digits, accumulating their value;
returns the value and the unconsumed remainder. -/
def parseNatAux : List Char → Nat → Nat × List Char
  | [], acc => (acc, [])
  | c :: cs, acc =>
    if isDig c then parseNatAux cs (10 * acc + digVal c) else (acc, c :: cs)

/-- Consume a maximal run of decimal digits after a decimal point,
returning their value and their count (needed for the scale). -/
def parseFracAux : List Char → Nat → Nat → Nat × Nat × List Char
  | [], acc, k => (acc, k, [])
  | c :: cs, acc, k =>
    if isDig c then parseFracAux cs (10 * acc + digVal c) (k + 1)
    else (acc, k, c :: cs)

/-- Multiplication on `ℚ`, stated through `Rat.divInt` so that the kernel
can evaluate it (the library's `Rat.mul` is irreducible); it agrees with
`*` by `qMul_eq` below. -/
def qMul (a b : ℚ) : ℚ := Rat.divInt (a.num * b.num) ((a.den : ℤ) * (b.den : ℤ))

/-- Division on `ℚ` through `Rat.divInt`; agrees with `/` by `qDiv_eq`. -/
def qDiv (a b : ℚ) : ℚ := Rat.divInt (a.num * (b.den : ℤ)) ((a.den : ℤ) * b.num)

/-- Addition on `ℚ` through `Rat.divInt`; agrees with `+` by `qAdd_eq`. -/
def qAdd (a b : ℚ) : ℚ :=
  Rat.divInt (a.num * (b.den : ℤ) + b.num * (a.den : ℤ)) ((a.den : ℤ) * (b.den : ℤ))

/-- Subtraction on `ℚ` through `Rat.divInt`; agrees with `-` by `qSub_eq`. -/
def qSub (a b : ℚ) : ℚ :=
  Rat.divInt (a.num * (b.den : ℤ) - b.num * (a.den : ℤ)) ((a.den : ℤ) * (b.den : ℤ))

/-- Model of Python `float(s)` on the decimal literals this program stores:
optional sign, optional integer digits, optional `.` plus fraction digits,
at least one digit in total, nothing left over.  (Exponent, `inf` and `nan`
forms are never produced by the program and are not modelled.) -/
def parseAmount (cs : List Char) : Option ℚ :=
  let neg : Bool := decide (cs.head? = some '-')
  let cs1 := if neg then cs.tail else cs
  let (ip, r1) := spanDigits cs1
  match r1 with
  | '.' :: r2 =>
    let (fv, fk, r3) := parseFracAux r2 0 0
    if r3 = [] && (ip ≠ [] || fk ≠ 0) then
      let v : ℚ := qAdd (mkRat (Int.ofNat (digitsVal ip 0)) 1) (mkRat (Int.ofNat fv) (10 ^ fk))
      some (if neg then -v else v)
    else none
  | [] =>
    if ip ≠ [] then
      let v : ℚ := mkRat (Int.ofNat (digitsVal ip 0)) 1
      some (if neg then -v else v)
    else none
  | _ => none

/-- Model of Python `str(x)` for the non-negative two-decimal floats this
program produces (`float` of a digit run, or a value rounded to 2 places):
integer part, `.`, then the fractional digits with any trailing zero
dropped, as the shortest-repr rule prints them. -/
def renderAmount (q : ℚ) : List Char :=
  let m : Nat := (qMul (mkRat 100 1) q).num.toNat
  let i := m / 100
  let f := m % 100
  if f = 0 then natChars i ++ ['.', '0']
  else if f % 10 = 0 then natChars i ++ ['.', digitChar (f / 10)]
  else natChars i ++ ['.', digitChar (f / 10), digitChar (f % 10)]

/-- Python `round(x, 2)` modelled exactly on rationals: scale by 100 and
round half to even. -/
def round2 (q : ℚ) : ℚ :=
  let s := qMul (mkRat 100 1) q
  let f : ℤ := Rat.floor s
  let r : ℚ := qSub s (mkRat f 1)
  let n : ℤ :=
    if r < mkRat 1 2 then f
    else if mkRat 1 2 < r then f + 1
    else if f % 2 = 0 then f else f + 1
  mkRat n 100

/-- Calendar date, as held by a Python `datetime` (time-of-day ignored:
the program only ever formats `%Y-%m-%d`). -/
structure Date where
  year : Nat
  month : Nat
  day : Nat
deriving DecidableEq, Repr

/-- Gregorian leap-year rule used by `datetime`. -/
def isLeap (y : Nat) : Bool := y % 4 = 0 && (y % 100 ≠ 0 || y % 400 = 0)

/-- Days in a month of a given year. -/
def daysInMonth (y m : Nat) : Nat :=
  if m = 2 then (if isLeap y then 29 else 28)
  else if m = 4 || m = 6 || m = 9 || m = 11 then 30
  else 31

/-- Validity check of the `datetime(year, month, day)` constructor:
`MINYEAR = 1`, `MAXYEAR = 9999`, month and day in calendar range. -/
def validDate (y m d : Nat) : Bool :=
  1 ≤ y && y ≤ 9999 && 1 ≤ m && m ≤ 12 && 1 ≤ d && d ≤ daysInMonth y m

/-- The `strftime("%Y-%m-%d")` rendering. -/
def isoDate (d : Date) : String :=
  String.mk (padZero 4 (natChars d.year) ++ '-' ::
    (padZero 2 (natChars d.month) ++ '-' :: padZero 2 (natChars d.day)))

/-- `d + timedelta(days=1)` (used by the query analyzer for "tomorrow"). -/
def nextDay (d : Date) : Date :=
  if d.day < daysInMonth d.year d.month then ⟨d.year, d.month, d.day + 1⟩
  else if d.month < 12 then ⟨d.year, d.month + 1, 1⟩
  else ⟨d.year + 1, 1, 1⟩

/-- `d - timedelta(days=1)` (used by the query analyzer for "yesterday"). -/
def prevDay (d : Date) : Date :=
  if 1 < d.day then ⟨d.year, d.month, d.day - 1⟩
  else if 1 < d.month then ⟨d.year, d.month - 1, daysInMonth d.year (d.month - 1)⟩
  else ⟨d.year - 1, 12, 31⟩

/-- `today.replace(day = k)`: keeps year and month, raises `ValueError`
(modelled as `Except.error`) when `k` is not a valid day of that month.
This is how the data extractor resolves "yesterday" and "tomorrow". -/
def replaceDay (d : Date) (k : Nat) : Except Unit Date :=
  if validDate d.year d.month k then Except.ok ⟨d.year, d.month, k⟩
  else Except.error ()

/-- Two-digit year window used by both date resolvers:
`< 50 → 20xx`, else `19xx`; years of three or more digits pass through. -/
def fixYear (y : Nat) : Nat :=
  if y < 100 then (if y < 50 then y + 2000 else y + 1900) else y

/-- Case-insensitive equality of character lists (Python lowercases the
token before each dictionary lookup). -/
def ciEqL : List Char → List Char → Bool
  | [], [] => true
  | c :: cs, d :: ds => ciEq c d && ciEqL cs ds
  | _, _ => false

/-- Longest alphabetic prefix, with the remainder (the `[a-zA-Z]+`
alternative of the token scan). -/
def spanAlpha : List Char → List Char × List Char
  | [] => ([], [])
  | c :: cs =>
    if c.isAlpha then
      let (w, r) := spanAlpha cs
      (c :: w, r)
    else ([], c :: cs)

/-- The `units` dictionary of `_normalize_number_words`. -/
def unitsVal (w : List Char) : Option Nat :=
  if ciEqL w (("zero").toList) then some 0
  else if ciEqL w (("one").toList) then some 1
  else if ciEqL w (("two").toList) then some 2
  else if ciEqL w (("three").toList) then some 3
  else if ciEqL w (("four").toList) then some 4
  else if ciEqL w (("five").toList) then some 5
  else if ciEqL w (("six").toList) then some 6
  else if ciEqL w (("seven").toList) then some 7
  else if ciEqL w (("eight").toList) then some 8
  else if ciEqL w (("nine").toList) then some 9
  else if ciEqL w (("ten").toList) then some 10
  else if ciEqL w (("eleven").toList) then some 11
  else if ciEqL w (("twelve").toList) then some 12
  else if ciEqL w (("thirteen").toList) then some 13
  else if ciEqL w (("fourteen").toList) then some 14
  else if ciEqL w (("fifteen").toList) then some 15
  else if ciEqL w (("sixteen").toList) then some 16
  else if ciEqL w (("seventeen").toList) then some 17
  else if ciEqL w (("eighteen").toList) then some 18
  else if ciEqL w (("nineteen").toList) then some 19
  else none

/-- The `tens` dictionary of `_normalize_number_words`. -/
def tensVal (w : List Char) : Option Nat :=
  if ciEqL w (("twenty").toList) then some 20
  else if ciEqL w (("thirty").toList) then some 30
  else if ciEqL w (("forty").toList) then some 40
  else if ciEqL w (("fifty").toList) then some 50
  else if ciEqL w (("sixty").toList) then some 60
  else if ciEqL w (("seventy").toList) then some 70
  else if ciEqL w (("eighty").toList) then some 80
  else if ciEqL w (("ninety").toList) then some 90
  else none

/-- The `scales` dictionary of `_normalize_number_words`. -/
def scalesVal (w : List Char) : Option Nat :=
  if ciEqL w (("hundred").toList) then some 100
  else if ciEqL w (("thousand").toList) then some 1000
  else if ciEqL w (("lakh").toList) then some 100000
  else if ciEqL w (("crore").toList) then some 10000000
  else none

/-- Loop body of `convert_number_phrase`: `current` and `total` are the
running value and the scale-carried total, `i` the count of consumed
tokens; the loop breaks at the first token that is in no dictionary. -/
def convertNumGo : List (List Char) → Nat → Nat → Nat → Nat × Nat
  | [], current, total, i => (total + current, i)
  | w :: rest, current, total, i =>
    match unitsVal w with
    | some u => convertNumGo rest (current + u) total (i + 1)
    | none =>
      match tensVal w with
      | some t => convertNumGo rest (current + t) total (i + 1)
      | none =>
        if ciEqL w (("and").toList) then convertNumGo rest current total (i + 1)
        else
          match scalesVal w with
          | some s =>
            convertNumGo rest 0 (total + (if current = 0 then 1 else current) * s) (i + 1)
          | none => (total + current, i)

/-- `convert_number_phrase(tokens)`: value of the leading number-word
sequence and the number of tokens consumed. -/
def convert_number_phrase (tokens : List (List Char)) : Nat × Nat :=
  convertNumGo tokens 0 0 0

/-- A token that starts a conversion attempt in `replace_sequences`
(`word in units or word in tens or word in scales or word == 'and'`). -/
def isNumWordTok (w : List Char) : Bool :=
  (unitsVal w).isSome || (tensVal w).isSome || (scalesVal w).isSome ||
    ciEqL w (("and").toList)

/-- The token scan `re.findall(r"[a-zA-Z]+|\d+|%|\S", text)`: maximal
alphabetic runs, maximal digit runs, a percent sign, or any other single
non-space character; whitespace separates tokens.  `fuel` bounds the
recursion and the input length always suffices. -/
def tokenizeFuel : Nat → List Char → List (List Char)
  | 0, _ => []
  | _ + 1, [] => []
  | fuel + 1, c :: cs =>
    if c.isAlpha then
      let (w, r) := spanAlpha cs
      (c :: w) :: tokenizeFuel fuel r
    else if isDig c then
      let (d, r) := spanDigits cs
      (c :: d) :: tokenizeFuel fuel r
    else if c = '%' then [c] :: tokenizeFuel fuel cs
    else if c.isWhitespace then tokenizeFuel fuel cs
    else [c] :: tokenizeFuel fuel cs

/-- The rewriting loop of `replace_sequences`: at a number word, convert
the phrase starting there and skip the consumed tokens; other tokens pass
through unchanged. -/
def replaceSeqFuel : Nat → List (List Char) → List (List Char)
  | 0, _ => []
  | _ + 1, [] => []
  | fuel + 1, t :: rest =>
    if isNumWordTok t then
      let p := convert_number_phrase (t :: rest)
      if 0 < p.2 then natChars p.1 :: replaceSeqFuel fuel (rest.drop (p.2 - 1))
      else t :: replaceSeqFuel fuel rest
    else t :: replaceSeqFuel fuel rest

/-- `' '.join(out)` on token lists. -/
def joinSpace : List (List Char) → List Char
  | [] => []
  | [t] => t
  | t :: rest => t ++ ' ' :: joinSpace rest

/-- `.replace(' %', '%')`: left-to-right non-overlapping replacement,
continuing after each replacement. -/
def replaceSpacePct : List Char → List Char
  | ' ' :: '%' :: rest => '%' :: replaceSpacePct rest
  | c :: rest => c :: replaceSpacePct rest
  | [] => []

/-- `_normalize_number_words`: tokenize, rewrite number-word phrases to
digits, join with single spaces, and glue `%` back onto the preceding
token. -/
def normalize_number_words (cs : List Char) : List Char :=
  replaceSpacePct (joinSpace (replaceSeqFuel cs.length (tokenizeFuel cs.length cs)))

/-- Number-word classification as the specification lists it (units,
tens, scale words, and the connector "and"), reusing the source's word
tables. -/
inductive NumWord
  | unit (n : Nat)
  | tens (n : Nat)
  | scale (s : Nat)
  | conj
deriving DecidableEq

/-- Classify one token as a number word following the dictionary order of
the source (units, tens, "and", scales). -/
def classifyNumWord (w : List Char) : Option NumWord :=
  match unitsVal w with
  | some n => some (NumWord.unit n)
  | none =>
    match tensVal w with
    | some n => some (NumWord.tens n)
    | none =>
      if ciEqL w (("and").toList) then some NumWord.conj
      else
        match scalesVal w with
        | some s => some (NumWord.scale s)
        | none => none

/-- Accumulator state of the documented spoken-number state machine. -/
structure NumAcc where
  running : Nat
  total : Nat
deriving DecidableEq

/-- One step of the documented accumulator: unit and tens words add to the
running value; a scale word multiplies the running value (1 if zero) by
the scale, adds it to the total and resets the running value; "and" is a
no-op. -/
def specNumStep (st : NumAcc) : NumWord → NumAcc
  | NumWord.unit n => ⟨st.running + n, st.total⟩
  | NumWord.tens n => ⟨st.running + n, st.total⟩
  | NumWord.conj => st
  | NumWord.scale s => ⟨0, st.total + (if st.running = 0 then 1 else st.running) * s⟩

/-- Modelled from the spec: the final value of a number-word sequence is
the total plus the trailing running value, starting from zero. -/
def specNumValue (ws : List NumWord) : Nat :=
  let st := ws.foldl specNumStep ⟨0, 0⟩
  st.total + st.running

/-- The maximal classifiable prefix of a token list — exactly the tokens
the conversion loop consumes. -/
def numPrefix : List (List Char) → List NumWord
  | [] => []
  | w :: rest =>
    match classifyNumWord w with
    | some nw => nw :: numPrefix rest
    | none => []

/-- Skip `\s*` (greedy; a shorter skip can never help because every
following pattern element requires a non-space character). -/
def dropSpaces (l : List Char) : List Char := l.dropWhile Char.isWhitespace

/-- Match `\s+`: at least one whitespace character, consumed greedily. -/
def spaces1 : List Char → Option (List Char)
  | [] => none
  | c :: r => if c.isWhitespace then some (dropSpaces r) else none

/-- Match `(?:\.\d{2})`: a point and exactly two digits. -/
def fracTwo : List Char → Option (List Char × List Char)
  | '.' :: a :: b :: r =>
    if isDig a && isDig b then some (['.', a, b], r) else none
  | _ => none

/-- Match `(?:\.\d+)`: a point and a maximal non-empty digit run (a
shorter run leaves a digit next, which no following element accepts). -/
def fracAny (l : List Char) : Option (List Char × List Char) :=
  match l with
  | '.' :: r =>
    let (ds, r') := spanDigits r
    if ds = [] then none else some ('.' :: ds, r')
  | _ => none

/-- Greedily collect `(?:,\d{3})*`: each repetition is a comma and exactly
three digits. -/
def commaGroups : List Char → List (List Char) × List Char
  | ',' :: a :: b :: c :: r =>
    if isDig a && isDig b && isDig c then
      let (gs, rest) := commaGroups r
      ((',' :: a :: b :: [c]) :: gs, rest)
    else ([], ',' :: a :: b :: c :: r)
  | l => ([], l)

/-- Backtracking candidates for the comma-group star, most repetitions
first: each candidate is the consumed middle part and the remainder. -/
def numCands : List (List Char) → List Char → List (List Char × List Char)
  | [], rest => [([], rest)]
  | g :: gs, rest =>
    (numCands gs rest).map (fun p => (g ++ p.1, p.2)) ++
      [([], g ++ gs.flatten ++ rest)]

/-- Backtracking candidates for the number group
`(\d+(?:,\d{3})*(?:\.\d{2})?)` at the current position, in regex
backtracking order (fraction dropped before a comma group is dropped).
The `\d+` run is only tried maximally: any shorter run is followed by a
digit, which fails the boundary and every continuation the program uses. -/
def matchNumCands (l : List Char) : List (List Char × List Char) :=
  let (ds, r1) := spanDigits l
  if ds = [] then []
  else
    let (gs, r2) := commaGroups r1
    (numCands gs r2).flatMap fun p =>
      match fracTwo p.2 with
      | some fr => [(ds ++ p.1 ++ fr.1, fr.2), (ds ++ p.1, p.2)]
      | none => [(ds ++ p.1, p.2)]

/-- A `\b` requirement after a number group: end of input or a non-word
character. -/
def tailBoundary : List Char → Bool
  | [] => true
  | c :: _ => !isWordChar c

/-- Numeric value of a matched number group: commas removed, then read as
a decimal literal (this is `float(s.replace(',', ''))`, which cannot fail
on a matched group). -/
def groupVal (g : List Char) : ℚ :=
  (parseAmount (g.filter (fun c => !(c == ',')))).getD 0

/-- Match the unit alternation `(?:dollars?|USD|rs|rupees?)`, trying the
alternatives in pattern order, case-insensitively. -/
def unitAfter (l : List Char) : Option (List Char) :=
  match stripCI (("dollar").toList) l with
  | some r => some (match r with | 's' :: r' => r' | 'S' :: r' => r' | _ => r)
  | none =>
    match stripCI (("usd").toList) l with
    | some r => some r
    | none =>
      match stripCI (("rs").toList) l with
      | some r => some r
      | none =>
        match stripCI (("rupee").toList) l with
        | some r => some (match r with | 's' :: r' => r' | 'S' :: r' => r' | _ => r)
        | none => none

/-- Match of `amount_pattern` at one position:
`\$?(\d+(?:,\d{3})*(?:\.\d{2})?)\b` first, else
`\b(\d+(?:,\d{3})*(?:\.\d{2})?)\s*(?:dollars?|USD|rs|rupees?)`.
Returns the captured number group and the remainder after the whole
match. -/
def amountMatchAt (prev : Option Char) (l : List Char) : Option (List Char × List Char) :=
  let alt1 :=
    match l with
    | '$' :: r => (matchNumCands r).findSome? fun (p : List Char × List Char) =>
        if tailBoundary p.2 then some p else none
    | _ => (matchNumCands l).findSome? fun (p : List Char × List Char) =>
        if tailBoundary p.2 then some p else none
  match alt1 with
  | some p => some p
  | none =>
    if boundaryOk prev then
      (matchNumCands l).findSome? fun (p : List Char × List Char) =>
        (unitAfter (dropSpaces p.2)).map fun r' => (p.1, r')
    else none

/-- Leftmost-match scan: try the position-matcher at every position from
left to right, tracking the previous character for `\b` checks. -/
def scanA (m : Option Char → List Char → Option α) : Option Char → List Char → Option α
  | prev, [] => m prev []
  | prev, c :: cs =>
    match m prev (c :: cs) with
    | some a => some a
    | none => scanA m (some c) cs

/-- First match of `amount_pattern` in the text (`re.findall` is only
ever used through `matches[0]`), as the captured group's value. -/
def firstAmount (cs : List Char) : Option ℚ :=
  (scanA amountMatchAt none cs).map fun p => groupVal p.1

/-- Tail of percentage alternative A after `(?:is|of|at)`: `\s*` then the
captured `(\d+(?:\.\d+)?)` then `\s*%`; the fraction is dropped on
failure before giving up.  Returns the captured group. -/
def pctNumAfter (r1 : List Char) : Option (List Char) :=
  let r2 := dropSpaces r1
  let (ds, r3) := spanDigits r2
  if ds = [] then none
  else
    let tailOk : List Char → Bool := fun r =>
      match dropSpaces r with
      | '%' :: _ => true
      | _ => false
    match fracAny r3 with
    | some fr => if tailOk fr.2 then some (ds ++ fr.1)
                 else if tailOk r3 then some ds else none
    | none => if tailOk r3 then some ds else none

/-- The lazy `.*?(?:is|of|at)` of percentage alternative A: advance one
character at a time (never across a newline, as `.` does not match one)
and take the earliest position where `(?:is|of|at)` plus its tail
matches. -/
def pctInner : List Char → Option (List Char)
  | [] => none
  | c :: rest =>
    let here :=
      match stripCI (("is").toList) (c :: rest) with
      | some r => pctNumAfter r
      | none =>
        match stripCI (("of").toList) (c :: rest) with
        | some r => pctNumAfter r
        | none =>
          match stripCI (("at").toList) (c :: rest) with
          | some r => pctNumAfter r
          | none => none
    match here with
    | some g => some g
    | none => if c = '\n' then none else pctInner rest

/-- Percentage alternative A at one position:
`(?:profit|loss).*?(?:is|of|at)\s*(\d+(?:\.\d+)?)\s*%`. -/
def pctAAt (l : List Char) : Option (List Char) :=
  match stripCI (("profit").toList) l with
  | some r => pctInner r
  | none =>
    match stripCI (("loss").toList) l with
    | some r => pctInner r
    | none => none

/-- Percentage alternative B at one position:
`(\d+(?:\.\d+)?)\s*%\s*(?:profit|loss)`. -/
def pctBAt (l : List Char) : Option (List Char) :=
  let (ds, r1) := spanDigits l
  if ds = [] then none
  else
    let tailOk : List Char → Bool := fun r =>
      match dropSpaces r with
      | '%' :: r' =>
        let r'' := dropSpaces r'
        ((stripCI (("profit").toList) r'').isSome || (stripCI (("loss").toList) r'').isSome)
      | _ => false
    match fracAny r1 with
    | some fr => if tailOk fr.2 then some (ds ++ fr.1)
                 else if tailOk r1 then some ds else none
    | none => if tailOk r1 then some ds else none

/-- Leftmost match of `percentage_pattern`, alternative A preferred at
each position; returns the captured percentage group. -/
def findPctG (cs : List Char) : Option (List Char) :=
  scanA (fun _ l =>
    match pctAAt l with
    | some g => some g
    | none => pctBAt l) none cs

/-- `float` value of a captured percentage group. -/
def pctVal (g : List Char) : ℚ := (parseAmount g).getD 0

/-- Investment pattern 1: `invested\s+(<number group>)` at one position. -/
def investAt1 (l : List Char) : Option (List Char) :=
  (stripCI (("invested").toList) l).bind fun r =>
    (spaces1 r).bind fun r2 => ((matchNumCands r2).head?).map fun (p : List Char × List Char) => p.1

/-- Investment patterns 2-4: `<key>\s+(?:of|is)\s+(<number group>)` at
one position. -/
def investAtKey (key : List Char) (l : List Char) : Option (List Char) :=
  (stripCI key l).bind fun r =>
    (spaces1 r).bind fun r2 =>
      (match stripCI (("of").toList) r2 with
       | some r3 => some r3
       | none => stripCI (("is").toList) r2).bind fun r3 =>
        (spaces1 r3).bind fun r4 =>
          ((matchNumCands r4).head?).map fun (p : List Char × List Char) => p.1

/-- The investment-pattern loop: each of the four patterns is searched in
turn over the whole text, and the first pattern with a match wins. -/
def findInvested (cs : List Char) : Option (List Char) :=
  match scanA (fun _ l => investAt1 l) none cs with
  | some g => some g
  | none =>
    match scanA (fun _ l => investAtKey (("investment").toList) l) none cs with
    | some g => some g
    | none =>
      match scanA (fun _ l => investAtKey (("base").toList) l) none cs with
      | some g => some g
      | none => scanA (fun _ l => investAtKey (("capital").toList) l) none cs

/-- `_extract_amount`: normalize number words, then use the percentage
construct with an investment (or first-amount) base when present, else
the first amount match, else `0.0`. -/
def extract_amount (text : List Char) : ℚ :=
  let nrm := normalize_number_words text
  match findPctG nrm with
  | some pg =>
    let base : Option ℚ :=
      match findInvested nrm with
      | some g => some (groupVal g)
      | none => firstAmount nrm
    match base with
    | some b => round2 (qMul b (qDiv (pctVal pg) (mkRat 100 1)))
    | none =>
      match firstAmount nrm with
      | some a => a
      | none => 0
  | none =>
    match firstAmount nrm with
    | some a => a
    | none => 0

/-- Take exactly `k` decimal digits, returning their value and the rest. -/
def takeDigs : Nat → List Char → Option (Nat × List Char)
  | 0, l => some (0, l)
  | _ + 1, [] => none
  | k + 1, c :: cs =>
    if isDig c then
      (takeDigs k cs).map fun p => (digVal c * 10 ^ k + p.1, p.2)
    else none

/-- Backtracking candidates for `\d{1,2}`: two digits first, then one. -/
def d12Cands (l : List Char) : List (Nat × List Char) :=
  ((takeDigs 2 l).toList ++ (takeDigs 1 l).toList)

/-- Backtracking candidates for `\d{2,4}`: four digits, then three, then
two. -/
def d24Cands (l : List Char) : List (Nat × List Char) :=
  ((takeDigs 4 l).toList ++ (takeDigs 3 l).toList ++ (takeDigs 2 l).toList)

/-- The separator class of a slash or a dash. -/
def sepSlashDash : List Char → Option (List Char)
  | '/' :: r => some r
  | '-' :: r => some r
  | _ => none

/-- Match the numeric date pattern (one or two digits, slash or dash,
one or two digits, slash or dash, two to four digits, word-bounded on
both sides) at one position, returning the three captured numbers and
the remainder. -/
def numericDateAt (prev : Option Char) (l : List Char) : Option (Nat × Nat × Nat × List Char) :=
  if boundaryOk prev then
    (d12Cands l).findSome? fun (a, r1) =>
      (sepSlashDash r1).bind fun r2 =>
        (d12Cands r2).findSome? fun (b, r3) =>
          (sepSlashDash r3).bind fun r4 =>
            (d24Cands r4).findSome? fun (y, r5) =>
              if tailBoundary r5 then some (a, b, y, r5) else none
  else none

/-- Month-name alternation in pattern order (january .. december);
returns the month number and the remainder. -/
def monthNameAt (l : List Char) : Option (Nat × List Char) :=
  match stripCI (("january").toList) l with
  | some r => some (1, r)
  | none => match stripCI (("february").toList) l with
    | some r => some (2, r)
    | none => match stripCI (("march").toList) l with
      | some r => some (3, r)
      | none => match stripCI (("april").toList) l with
        | some r => some (4, r)
        | none => match stripCI (("may").toList) l with
          | some r => some (5, r)
          | none => match stripCI (("june").toList) l with
            | some r => some (6, r)
            | none => match stripCI (("july").toList) l with
              | some r => some (7, r)
              | none => match stripCI (("august").toList) l with
                | some r => some (8, r)
                | none => match stripCI (("september").toList) l with
                  | some r => some (9, r)
                  | none => match stripCI (("october").toList) l with
                    | some r => some (10, r)
                    | none => match stripCI (("november").toList) l with
                      | some r => some (11, r)
                      | none => match stripCI (("december").toList) l with
                        | some r => some (12, r)
                        | none => none

/-- Optional ordinal suffix `(?:st|nd|rd|th)?` (the alternatives start
with distinct characters, so at most one applies). -/
def ordSuffix (l : List Char) : List Char :=
  match stripCI (("st").toList) l with
  | some r => r
  | none => match stripCI (("nd").toList) l with
    | some r => r
    | none => match stripCI (("rd").toList) l with
      | some r => r
      | none => match stripCI (("th").toList) l with
        | some r => r
        | none => l

/-- Match the extractor's second date pattern
`\b(january|...)\s+(\d{1,2})(?:st|nd|rd|th)?,?\s+(\d{2,4})\b` at one
position: month name, day, year. -/
def monthDayYearAt (prev : Option Char) (l : List Char) : Option (Nat × Nat × Nat × List Char) :=
  if boundaryOk prev then
    (monthNameAt l).bind fun (m, r1) =>
      (spaces1 r1).bind fun r2 =>
        (d12Cands r2).findSome? fun (d, r3) =>
          let r4 := ordSuffix r3
          let r5 := match r4 with
            | ',' :: rr => rr
            | _ => r4
          (spaces1 r5).bind fun r6 =>
            (d24Cands r6).findSome? fun (y, r7) =>
              if tailBoundary r7 then some (m, d, y, r7) else none
  else none

/-- Match the day-month-year pattern
`(\d{1,2})(?:st|nd|rd|th)?\s+(january|...)\s+(\d{2,4})\b` at one
position; `lead` selects whether a leading `\b` is required (the
extractor's `date_patterns[2]` has one, the query analyzer's combined
`date_pattern` does not). -/
def dayMonthYearAt (lead : Bool) (prev : Option Char) (l : List Char) :
    Option (Nat × Nat × Nat × List Char) :=
  if lead && !boundaryOk prev then none
  else
    (d12Cands l).findSome? fun (d, r1) =>
      let r2 := ordSuffix r1
      (spaces1 r2).bind fun r3 =>
        (monthNameAt r3).bind fun (m, r4) =>
          (spaces1 r4).bind fun r5 =>
            (d24Cands r5).findSome? fun (y, r6) =>
              if tailBoundary r6 then some (d, m, y, r6) else none

/-- Word-alternation match `\b(w1|w2|...)\b` at one position (no listed
word is a prefix of another, so plain first-match alternation is
faithful); returns the remainder. -/
def wordAltAt (ws : List (List Char)) (prev : Option Char) (l : List Char) :
    Option (List Char) :=
  if boundaryOk prev then
    ws.findSome? fun w =>
      (stripCI w l).bind fun r => if tailBoundary r then some r else none
  else none

/-- `re.search` existence of a `\b(w1|w2|...)\b` pattern. -/
def searchWordList (ws : List (List Char)) (cs : List Char) : Bool :=
  (scanA (wordAltAt ws) none cs).isSome

/-- Numeric-date resolution of `_extract_date` (data extractor): fix the
two-digit year, try month/day/year with the `datetime` constructor, retry
day/month/year on `ValueError`. -/
def resolveNumericDateE (a b y : Nat) : Option Date :=
  let y' := fixYear y
  if validDate y' a b then some ⟨y', a, b⟩
  else if validDate y' b a then some ⟨y', b, a⟩
  else none

/-- `_extract_date`: relative keywords first (resolved with
`today.replace(day = day ± 1)`, which can raise), then the numeric date
pattern, then the two month-name patterns (each falling through on an
invalid calendar date), and the current date as default. -/
def extract_date (text : List Char) (now : Date) : Except Unit String :=
  if searchWordList [("today").toList] text then Except.ok (isoDate now)
  else if searchWordList [("yesterday").toList] text then
    (replaceDay now (now.day - 1)).map isoDate
  else if searchWordList [("tomorrow").toList] text then
    (replaceDay now (now.day + 1)).map isoDate
  else
    let numres : Option Date :=
      (scanA numericDateAt none text).bind fun (a, b, y, _) =>
        resolveNumericDateE a b y
    match numres with
    | some d => Except.ok (isoDate d)
    | none =>
      let p1 : Option Date :=
        (scanA monthDayYearAt none text).bind fun (m, d, y, _) =>
          let y' := fixYear y
          if validDate y' m d then some ⟨y', m, d⟩ else none
      match p1 with
      | some d => Except.ok (isoDate d)
      | none =>
        let p2 : Option Date :=
          (scanA (dayMonthYearAt true) none text).bind fun (d, m, y, _) =>
            let y' := fixYear y
            if validDate y' m d then some ⟨y', m, d⟩ else none
        match p2 with
        | some d => Except.ok (isoDate d)
        | none => Except.ok (isoDate now)

/-- Decidable equality for `Except`, needed to evaluate concrete runs of
the fallible date resolver. -/
instance exceptDecEq {e a : Type} [DecidableEq e] [DecidableEq a] :
    DecidableEq (Except e a) := fun x y =>
  match x, y with
  | Except.error u, Except.error v =>
    if h : u = v then isTrue (by rw [h]) else
      isFalse (fun hh => h (by cases hh; rfl))
  | Except.error _, Except.ok _ => isFalse (fun hh => Except.noConfusion hh)
  | Except.ok _, Except.error _ => isFalse (fun hh => Except.noConfusion hh)
  | Except.ok u, Except.ok v =>
    if h : u = v then isTrue (by rw [h]) else
      isFalse (fun hh => h (by cases hh; rfl))

/-- The profit and loss keyword lists of `_extract_type`, one list per
pattern in source order. -/
def profitWords1 : List (List Char) :=
  [("profit").toList, ("gained").toList, ("earned").toList, ("received").toList,
   ("income").toList, ("revenue").toList, ("made").toList, ("won").toList]

/-- Second profit pattern of `_extract_type`. -/
def profitWords2 : List (List Char) :=
  [("in").toList, ("plus").toList, ("positive").toList]

/-- First loss pattern of `_extract_type`. -/
def lossWords1 : List (List Char) :=
  [("loss").toList, ("lost").toList, ("spent").toList, ("expense").toList,
   ("paid").toList, ("cost").toList, ("negative").toList, ("minus").toList]

/-- Second loss pattern of `_extract_type`. -/
def lossWords2 : List (List Char) :=
  [("out").toList, ("down").toList]

/-- `_extract_type`: any profit pattern wins, else any loss pattern, else
the conservative default `"loss"`. -/
def extract_type (text : List Char) : String :=
  if searchWordList profitWords1 text || searchWordList profitWords2 text then "profit"
  else if searchWordList lossWords1 text || searchWordList lossWords2 text then "loss"
  else "loss"

/-- Structured result of extraction: the dictionary
`{type, amount, date, details}`. -/
structure Record where
  type : String
  amount : ℚ
  date : String
  details : String
deriving DecidableEq, Repr

/-- Extent (match length) of `amount_pattern` at one position, for
`re.sub`. -/
def amountSubAt (prev : Option Char) (l : List Char) : Option Nat :=
  (amountMatchAt prev l).map fun p => l.length - p.2.length

/-- Extent of the percentage-removal pattern: digits, optional point
fraction, optional spaces, percent sign. -/
def pctSubAt (_ : Option Char) (l : List Char) : Option Nat :=
  let (ds, r1) := spanDigits l
  if ds = [] then none
  else
    let tryTail : List Char → Option Nat := fun r =>
      match dropSpaces r with
      | '%' :: rr => some (l.length - rr.length)
      | _ => none
    match fracAny r1 with
    | some fr =>
      match tryTail fr.2 with
      | some k => some k
      | none => tryTail r1
    | none => tryTail r1

/-- Extent of the numeric date pattern at one position. -/
def numericDateSubAt (prev : Option Char) (l : List Char) : Option Nat :=
  (numericDateAt prev l).map fun q => l.length - q.2.2.2.length

/-- Extent of the month-day-year pattern at one position. -/
def mdySubAt (prev : Option Char) (l : List Char) : Option Nat :=
  (monthDayYearAt prev l).map fun q => l.length - q.2.2.2.length

/-- Extent of the day-month-year pattern at one position. -/
def dmySubAt (prev : Option Char) (l : List Char) : Option Nat :=
  (dayMonthYearAt true prev l).map fun q => l.length - q.2.2.2.length

/-- The relative-date keyword list. -/
def relWords : List (List Char) :=
  [("today").toList, ("yesterday").toList, ("tomorrow").toList]

/-- Extent of the relative-date word alternation at one position. -/
def relSubAt (prev : Option Char) (l : List Char) : Option Nat :=
  (wordAltAt relWords prev l).map fun r => l.length - r.length

/-- Strip the alternation of `is`, `of` or `at` (distinct first
characters). -/
def isOfAtStrip (l : List Char) : Option (List Char) :=
  match stripCI (("is").toList) l with
  | some r => some r
  | none =>
    match stripCI (("of").toList) l with
    | some r => some r
    | none => stripCI (("at").toList) l

/-- Extent of the transaction-word pattern: a word-bounded
profit-or-loss verb, one or more spaces, then a word-bounded `is`, `of`
or `at`. -/
def typeIsOfAtSubAt (prev : Option Char) (l : List Char) : Option Nat :=
  if boundaryOk prev then
    ([("profit").toList, ("loss").toList, ("gained").toList, ("earned").toList,
      ("received").toList, ("spent").toList, ("paid").toList, ("lost").toList].findSome?
      fun w =>
        (stripCI w l).bind fun r =>
          (spaces1 r).bind fun r2 =>
            (isOfAtStrip r2).bind fun r3 =>
              if tailBoundary r3 then some (l.length - r3.length) else none)
  else none

/-- Extent of the stop-word alternation `and`, `is`, `nothing` (listed
twice in the source). -/
def andIsNothingSubAt (prev : Option Char) (l : List Char) : Option Nat :=
  (wordAltAt [("and").toList, ("is").toList, ("nothing").toList, ("nothing").toList]
    prev l).map fun r => l.length - r.length

/-- `re.sub(pattern, '', s)`: scan left to right, delete each
non-overlapping match, continue after it; the previous original
character feeds the next boundary check.  No embedded pattern matches
the empty string, so a zero extent is treated as no match. -/
def subFuel (m : Option Char → List Char → Option Nat) :
    Nat → Option Char → List Char → List Char
  | 0, _, l => l
  | fuel + 1, prev, l =>
    match l with
    | [] => []
    | c :: rest =>
      match m prev l with
      | some (k + 1) =>
        subFuel m fuel ((l.take (k + 1)).getLast?) (l.drop (k + 1))
      | _ => c :: subFuel m fuel (some c) rest

/-- Longest non-whitespace prefix, with the remainder. -/
def spanNonWs : List Char → List Char × List Char
  | [] => ([], [])
  | c :: cs =>
    if c.isWhitespace then ([], c :: cs)
    else
      let (w, r) := spanNonWs cs
      (c :: w, r)

/-- Python `s.split()`: whitespace-separated words. -/
def splitWsFuel : Nat → List Char → List (List Char)
  | 0, _ => []
  | _ + 1, [] => []
  | fuel + 1, c :: cs =>
    if c.isWhitespace then splitWsFuel fuel cs
    else
      let (w, r) := spanNonWs cs
      (c :: w) :: splitWsFuel fuel r

/-- ASCII upper-casing of one character. -/
def upperChar (c : Char) : Char :=
  if 97 ≤ c.toNat && c.toNat ≤ 122 then Char.ofNat (c.toNat - 32) else c

/-- ASCII lower-casing of one character. -/
def lowerChar (c : Char) : Char :=
  if 65 ≤ c.toNat && c.toNat ≤ 90 then Char.ofNat (c.toNat + 32) else c

/-- Python `str.capitalize()`: first character upper-cased, the rest
lower-cased. -/
def capitalizeList : List Char → List Char
  | [] => []
  | c :: r => upperChar c :: r.map lowerChar

/-- `str.strip()`. -/
def stripList (cs : List Char) : List Char :=
  ((cs.dropWhile Char.isWhitespace).reverse.dropWhile Char.isWhitespace).reverse

/-- `_extract_details`: the canonical investment sentence when both a
percentage construct and an `invested` phrase are present; otherwise
strip amounts, percentages, dates, transaction stop-words, collapse
whitespace, and fall back to a default below 3 characters. -/
def extract_details (text : List Char) (ty : String) : String :=
  let dd : List Char :=
    match findPctG text, scanA (fun _ l => investAt1 l) none text with
    | some pg, some ig =>
      (("Investment of ").toList) ++ ig.filter (fun c => !(c == ',')) ++
        ((" with ").toList) ++ pg ++ (("% ").toList) ++ ty.toList
    | _, _ =>
      let d1 := subFuel amountSubAt text.length none text
      let d2 := subFuel pctSubAt d1.length none d1
      let d3 := subFuel numericDateSubAt d2.length none d2
      let d4 := subFuel mdySubAt d3.length none d3
      let d5 := subFuel dmySubAt d4.length none d4
      let d6 := subFuel relSubAt d5.length none d5
      let d7 := subFuel typeIsOfAtSubAt d6.length none d6
      let d8 := subFuel relSubAt d7.length none d7
      let d9 := subFuel andIsNothingSubAt d8.length none d8
      joinSpace (splitWsFuel d9.length d9)
  if dd.length < 3 then
    String.mk (capitalizeList ty.toList ++ (" transaction").toList)
  else String.mk dd

/-- `extract`: the four sub-resolvers in source order; a `ValueError`
raised by the date resolver propagates (there is no handler in the
source). -/
def extract (text : List Char) (now : Date) : Except Unit Record :=
  let text_lower := stripList text
  let ty := extract_type text_lower
  let amount := extract_amount text
  match extract_date text_lower now with
  | Except.error e => Except.error e
  | Except.ok date => Except.ok ⟨ty, amount, date, extract_details text ty⟩

/-- Intent kinds produced by `_parse_query`. -/
inductive QueryKind
  | monthly_report
  | date_query
  | type_query
  | summary
  | unknown
deriving DecidableEq, Repr

/-- The `params` dictionary of `_parse_query`; absent keys are `none`. -/
structure Params where
  month : Option Nat := none
  year : Option Nat := none
  date : Option String := none
  type : Option String := none
deriving DecidableEq, Repr

/-- The query analyzer's profit keyword list. -/
def qProfitWords : List (List Char) :=
  [("profit").toList, ("profits").toList, ("gained").toList, ("earned").toList,
   ("income").toList, ("revenue").toList, ("made").toList, ("earn").toList]

/-- The query analyzer's loss keyword list. -/
def qLossWords : List (List Char) :=
  [("loss").toList, ("losses").toList, ("lost").toList, ("spent").toList,
   ("expense").toList, ("expenses").toList, ("spend").toList]

/-- The query analyzer's amount-question keyword list. -/
def qAmountWords : List (List Char) :=
  [("how much").toList, ("what").toList, ("total").toList, ("amount").toList,
   ("sum").toList, ("did").toList, ("have").toList]

/-- The query analyzer's report keyword list. -/
def qReportWords : List (List Char) :=
  [("report").toList, ("summary").toList, ("overview").toList, ("total").toList]

/-- Relative-date keywords as an enumeration. -/
inductive RelWord
  | today
  | yesterday
  | tomorrow
deriving DecidableEq

/-- Match the relative-date alternation at one position, returning which
keyword matched. -/
def relValAt (prev : Option Char) (l : List Char) : Option RelWord :=
  if boundaryOk prev then
    [(("today").toList, RelWord.today), (("yesterday").toList, RelWord.yesterday),
     (("tomorrow").toList, RelWord.tomorrow)].findSome? fun p =>
      (stripCI p.1 l).bind fun r => if tailBoundary r then some p.2 else none
  else none

/-- Leftmost relative-date keyword of a query. -/
def searchRel (cs : List Char) : Option RelWord := scanA relValAt none cs

/-- Leftmost word-bounded month name of a query, as its number. -/
def searchMonthNum (cs : List Char) : Option Nat :=
  scanA (fun prev l =>
    if boundaryOk prev then
      (monthNameAt l).bind fun (m, r) => if tailBoundary r then some m else none
    else none) none cs

/-- Leftmost word-bounded four-digit year starting `20`, as its value. -/
def searchYear (cs : List Char) : Option Nat :=
  scanA (fun prev l =>
    if boundaryOk prev then
      match l with
      | '2' :: '0' :: a :: b :: r =>
        if isDig a && isDig b && tailBoundary r then
          some (2000 + 10 * digVal a + digVal b)
        else none
      | _ => none
    else none) none cs

/-- A match of the analyzer's combined `date_pattern`: numeric date or
day-plus-month-name date (the named alternative has no leading `\b`). -/
inductive QDateMatch
  | numeric (a b y : Nat)
  | named (d m y : Nat)
deriving DecidableEq

/-- Match the combined `date_pattern` at one position, numeric
alternative first. -/
def queryDateAt (prev : Option Char) (l : List Char) : Option QDateMatch :=
  match numericDateAt prev l with
  | some (a, b, y, _) => some (QDateMatch.numeric a b y)
  | none =>
    (dayMonthYearAt false prev l).map fun q => QDateMatch.named q.1 q.2.1 q.2.2.1

/-- Leftmost match of the analyzer's `date_pattern`. -/
def searchQueryDate (cs : List Char) : Option QDateMatch :=
  scanA queryDateAt none cs

/-- Numeric-date resolution of `_extract_date_from_match` (query
analyzer): identical to the extractor's, written separately because the
source duplicates it. -/
def resolveNumericDateQ (a b y : Nat) : Option Date :=
  let y' := fixYear y
  if validDate y' a b then some ⟨y', a, b⟩
  else if validDate y' b a then some ⟨y', b, a⟩
  else none

/-- `_extract_date_from_match`: numeric groups use the two-step
disambiguation; named groups fix the year and validate the single
reading; `None` when no reading is a calendar date. -/
def extract_date_from_match : QDateMatch → Option String
  | QDateMatch.numeric a b y => (resolveNumericDateQ a b y).map isoDate
  | QDateMatch.named d m y =>
    let y' := fixYear y
    if validDate y' m d then some (isoDate ⟨y', m, d⟩) else none

/-- `_parse_query`: the rule cascade of the query analyzer.  Relative
dates win outright; a month mention sets `month`/`year` and chooses
`type_query` or `monthly_report`; an explicit date that resolves
overrides the kind with `date_query`; amount keywords and report
keywords only apply while the kind is still `unknown`. -/
def parse_query (q : List Char) (now : Date) : QueryKind × Params :=
  match searchRel q with
  | some rel =>
    let date_str :=
      match rel with
      | RelWord.today => isoDate now
      | RelWord.yesterday => isoDate (prevDay now)
      | RelWord.tomorrow => isoDate (nextDay now)
    let ty : Option String :=
      if searchWordList qProfitWords q then some "profit"
      else if searchWordList qLossWords q then some "loss"
      else none
    (QueryKind.date_query, { date := some date_str, type := ty })
  | none =>
    let monthOpt := searchMonthNum q
    let s1 : QueryKind × Params :=
      match monthOpt with
      | some m =>
        let y := match searchYear q with
          | some y => y
          | none => now.year
        if searchWordList qProfitWords q then
          (QueryKind.type_query, { month := some m, year := some y, type := some "profit" })
        else if searchWordList qLossWords q then
          (QueryKind.type_query, { month := some m, year := some y, type := some "loss" })
        else (QueryKind.monthly_report, { month := some m, year := some y })
      | none => (QueryKind.unknown, {})
    let s2 : QueryKind × Params :=
      match searchQueryDate q with
      | some dm =>
        match extract_date_from_match dm with
        | some ds =>
          let ty : Option String :=
            if searchWordList qProfitWords q then some "profit"
            else if searchWordList qLossWords q then some "loss"
            else s1.2.type
          (QueryKind.date_query, { s1.2 with date := some ds, type := ty })
        | none => s1
      | none => s1
    let s3 : QueryKind × Params :=
      if searchWordList qAmountWords q && s2.1 = QueryKind.unknown then
        if searchWordList [("today").toList] q then
          (QueryKind.date_query, { s2.2 with date := some (isoDate now) })
        else (QueryKind.summary, { s2.2 with type := none })
      else s2
    if searchWordList qReportWords q && s3.1 = QueryKind.unknown then
      if searchWordList qProfitWords q then
        (QueryKind.summary, { s3.2 with type := some "profit" })
      else if searchWordList qLossWords q then
        (QueryKind.summary, { s3.2 with type := some "loss" })
      else if monthOpt = none && searchQueryDate q = none then
        (QueryKind.summary, { s3.2 with type := none })
      else s3
    else s3

/-- One stored CSV data row: the four cells as text.  Header management
and CSV quoting are handled by Python's `csv` module and modelled away:
the store holds the cell strings of each data row in file order. -/
structure Row where
  type : String
  amount : String
  date : String
  details : String
deriving DecidableEq, Repr

/-- The row written for a record by `csv.DictWriter.writerow`: the
`amount` float is rendered with `str`, the other fields are already
strings. -/
def encodeRecord (r : Record) : Row :=
  ⟨r.type, String.mk (renderAmount r.amount), r.date, r.details⟩

/-- `read_all_records`: convert each row's amount with `float(...)`; an
unparseable amount raises inside the loop and the handler returns the
records collected so far. -/
def read_all_records : List Row → List Record
  | [] => []
  | row :: rest =>
    match parseAmount row.amount.toList with
    | some q => ⟨row.type, q, row.date, row.details⟩ :: read_all_records rest
    | none => []

/-- Python `str.lower()` (ASCII). -/
def lowerStr (s : String) : String := String.mk (s.toList.map lowerChar)

/-- The duplicate-check key of `save_record`:
`(str(type).lower(), str(amount), str(date), str(details))`. -/
def recKey (r : Record) : String × String × String × String :=
  (lowerStr r.type, String.mk (renderAmount r.amount), r.date, r.details)

/-- `save_record`: with duplicate checking on, re-read the store and
refuse a record whose key equals an existing record's key; an I/O
failure during the append is caught and reported as `False`. -/
def save_record (st : List Row) (record : Record) (check_duplicates ioFail : Bool) :
    Bool × List Row :=
  if check_duplicates &&
      (read_all_records st).any (fun e => decide (recKey e = recKey record)) then
    (false, st)
  else if ioFail then (false, st)
  else (true, st ++ [encodeRecord record])

/-- Modelled from the spec: a "valid calendar date" (month in range, day
within the month), the reading against which the `datetime`-based check
of the source is compared. -/
def isRealDate (y m d : Nat) : Bool :=
  1 ≤ m && m ≤ 12 && 1 ≤ d && d ≤ daysInMonth y m

/-! Bridge lemmas: the kernel-evaluable arithmetic wrappers agree with
the standard field operations on `ℚ`. -/

theorem qMul_eq (a b : ℚ) : qMul a b = a * b := by
  rw [qMul, ← Rat.divInt_mul_divInt', Rat.num_divInt_den, Rat.num_divInt_den]

theorem qDiv_eq (a b : ℚ) : qDiv a b = a / b := (Rat.div_def' a b).symm

theorem qAdd_eq (a b : ℚ) : qAdd a b = a + b := by
  have hb : (a.den : ℤ) ≠ 0 := Int.natCast_ne_zero.mpr a.den_nz
  have hd : (b.den : ℤ) ≠ 0 := Int.natCast_ne_zero.mpr b.den_nz
  rw [qAdd, ← Rat.divInt_add_divInt _ _ hb hd, Rat.num_divInt_den, Rat.num_divInt_den]

theorem qSub_eq (a b : ℚ) : qSub a b = a - b := by
  have hb : (a.den : ℤ) ≠ 0 := Int.natCast_ne_zero.mpr a.den_nz
  have hd : (b.den : ℤ) ≠ 0 := Int.natCast_ne_zero.mpr b.den_nz
  rw [qSub, ← Rat.divInt_sub_divInt _ _ hb hd, Rat.num_divInt_den, Rat.num_divInt_den]

/-! Decimal-digit rendering lemmas, used for the save-then-read
round-trip property of the ledger store. -/

theorem natCharsAux_append (fuel : Nat) :
    ∀ n acc, natCharsAux fuel n acc = natCharsAux fuel n [] ++ acc := by
  induction fuel with
  | zero => intro n acc; simp [natCharsAux]
  | succ f ih =>
    intro n acc
    simp only [natCharsAux]
    split
    · simp
    · rw [ih (n / 10) (digitChar (n % 10) :: acc), ih (n / 10) [digitChar (n % 10)]]
      simp

theorem natChars_ne_nil (n : Nat) : natChars n ≠ [] := by
  rw [natChars]
  simp only [natCharsAux]
  split
  · simp
  · rw [natCharsAux_append]
    simp

theorem isDig_digitChar (k : Nat) (h : k < 10) : isDig (digitChar k) = true := by
  interval_cases k <;> decide

theorem digVal_digitChar (k : Nat) (h : k < 10) : digVal (digitChar k) = k := by
  interval_cases k <;> decide

theorem natChars_all_digits (fuel : Nat) :
    ∀ n, n < 10 ^ fuel → ∀ c ∈ natCharsAux fuel n [], isDig c = true := by
  induction fuel with
  | zero => intro n _ c hc; simp [natCharsAux] at hc
  | succ f ih =>
    intro n hn c hc
    simp only [natCharsAux] at hc
    by_cases h10 : n < 10
    · rw [if_pos h10] at hc
      simp at hc
      subst hc
      exact isDig_digitChar n h10
    · rw [if_neg h10, natCharsAux_append] at hc
      rcases List.mem_append.mp hc with h1 | h2
      · exact ih (n / 10)
          (Nat.div_lt_of_lt_mul (by rwa [← pow_succ'])) c h1
      · simp at h2
        subst h2
        exact isDig_digitChar _ (Nat.mod_lt _ (by norm_num))

theorem digitsVal_append (l1 : List Char) :
    ∀ l2 acc, digitsVal (l1 ++ l2) acc = digitsVal l2 (digitsVal l1 acc) := by
  induction l1 with
  | nil => intro l2 acc; simp [digitsVal]
  | cons c cs ih => intro l2 acc; simp [digitsVal, ih]

theorem digitsVal_natChars_aux (fuel : Nat) :
    ∀ n acc, n < 10 ^ fuel →
      digitsVal (natCharsAux fuel n []) acc =
        acc * 10 ^ (natCharsAux fuel n []).length + n := by
  induction fuel with
  | zero =>
    intro n acc hn
    interval_cases n
    simp [natCharsAux, digitsVal]
  | succ f ih =>
    intro n acc hn
    by_cases h10 : n < 10
    · simp only [natCharsAux, if_pos h10]
      simp [digitsVal, digVal_digitChar n h10]
      ring
    · simp only [natCharsAux, if_neg h10]
      rw [natCharsAux_append]
      have hdiv : n / 10 < 10 ^ f :=
        Nat.div_lt_of_lt_mul (by rwa [← pow_succ'])
      rw [digitsVal_append, ih (n / 10) acc hdiv]
      simp only [digitsVal, isDig_digitChar _ (Nat.mod_lt n (by norm_num)),
        digVal_digitChar _ (Nat.mod_lt n (by norm_num)), List.length_append,
        List.length_singleton]
      rw [pow_succ]
      have : 10 * (acc * 10 ^ (natCharsAux f (n / 10) []).length + n / 10) + n % 10 =
          acc * (10 ^ (natCharsAux f (n / 10) []).length * 10) + (10 * (n / 10) + n % 10) := by
        ring
      rw [this, Nat.div_add_mod]

theorem nat_lt_pow10 (n : Nat) : n < 10 ^ (n + 1) :=
  lt_of_lt_of_le (Nat.lt_pow_self (by norm_num) n)
    (Nat.pow_le_pow_right (by norm_num) (Nat.le_succ n))

theorem digitsVal_natChars (n : Nat) : digitsVal (natChars n) 0 = n := by
  rw [natChars, digitsVal_natChars_aux (n + 1) n 0 (nat_lt_pow10 n)]
  simp

theorem spanDigits_append (l : List Char) :
    ∀ r, (∀ c ∈ l, isDig c = true) →
      (∀ c, r.head? = some c → isDig c = false) →
      spanDigits (l ++ r) = (l, r) := by
  induction l with
  | nil =>
    intro r _ hr
    cases r with
    | nil => simp [spanDigits]
    | cons c cs =>
      simp only [List.nil_append, spanDigits]
      rw [hr c rfl]
      simp
  | cons c cs ih =>
    intro r hl hr
    simp only [List.cons_append, spanDigits]
    rw [hl c (by simp)]
    simp only [if_true, List.append_eq]
    rw [ih r (fun d hd => hl d (by simp [hd])) hr]

theorem mkRat_eq_div' (n : ℤ) (d : ℕ) : (mkRat n d : ℚ) = (n : ℚ) / (d : ℚ) := by
  rw [Rat.mkRat_eq_divInt, Rat.divInt_eq_div]
  norm_cast

theorem renderAmount_scaled (m : Nat) :
    (qMul (mkRat 100 1) ((m : ℚ) / 100)).num.toNat = m := by
  rw [qMul_eq, Rat.mkRat_one]
  have h2 : ((100 : ℤ) : ℚ) * ((m : ℚ) / 100) = (m : ℚ) := by
    push_cast
    field_simp
  rw [h2, Rat.num_natCast]
  exact Int.toNat_natCast m

theorem parseFracAux_one (k : ℕ) (h : k < 10) :
    parseFracAux [digitChar k] 0 0 = (k, 1, []) := by
  simp [parseFracAux, isDig_digitChar k h, digVal_digitChar k h]

theorem parseFracAux_two (k j : ℕ) (hk : k < 10) (hj : j < 10) :
    parseFracAux [digitChar k, digitChar j] 0 0 = (10 * k + j, 2, []) := by
  simp [parseFracAux, isDig_digitChar, digVal_digitChar, hk, hj]

theorem parseAmount_natChars_frac (i fv fk : ℕ) (fr : List Char)
    (hpf : parseFracAux fr 0 0 = (fv, fk, [])) :
    parseAmount (natChars i ++ '.' :: fr) =
      some (qAdd (mkRat (Int.ofNat i) 1) (mkRat (Int.ofNat fv) (10 ^ fk))) := by
  have hne := natChars_ne_nil i
  have hdig : ∀ c ∈ natChars i, isDig c = true :=
    natChars_all_digits (i + 1) i (nat_lt_pow10 i)
  obtain ⟨c, cs', hc⟩ := List.exists_cons_of_ne_nil hne
  have hcd : isDig c = true := hdig c (by rw [hc]; simp)
  have hcne : (natChars i ++ '.' :: fr).head? ≠ some '-' := by
    rw [hc]
    simp only [List.cons_append, List.head?_cons]
    intro h
    have h' : c = '-' := by injection h
    rw [h'] at hcd
    exact absurd hcd (by decide)
  have hspan : spanDigits (natChars i ++ '.' :: fr) = (natChars i, '.' :: fr) :=
    spanDigits_append (natChars i) ('.' :: fr) hdig
      (by intro c' hc'; simp at hc'; subst hc'; decide)
  simp only [parseAmount, decide_eq_true_eq, hcne, decide_False, if_neg, Bool.false_eq_true,
    not_false_eq_true, if_false, hspan, hpf, digitsVal_natChars, hne, ite_true]
  simp [hne]

theorem parseAmount_renderAmount (m : Nat) :
    parseAmount (renderAmount ((m : ℚ) / 100)) = some ((m : ℚ) / 100) := by
  have hsc := renderAmount_scaled m
  simp only [renderAmount, hsc]
  by_cases h0 : m % 100 = 0
  · rw [if_pos h0,
      parseAmount_natChars_frac (m / 100) 0 1 ['0'] (by decide)]
    congr 1
    rw [qAdd_eq, Rat.mkRat_one, mkRat_eq_div']
    simp only [Int.ofNat_eq_natCast, Int.cast_natCast]
    have hd : ((100 : ℕ) : ℚ) ≠ 0 := by norm_num
    rw [Nat.cast_div (Nat.dvd_of_mod_eq_zero h0) hd]
    push_cast
    ring
  · by_cases h10 : m % 100 % 10 = 0
    · rw [if_neg h0, if_pos h10,
        parseAmount_natChars_frac (m / 100) (m % 100 / 10) 1
          [digitChar (m % 100 / 10)] (parseFracAux_one _ (by omega))]
      congr 1
      rw [qAdd_eq, Rat.mkRat_one, mkRat_eq_div']
      simp only [Int.ofNat_eq_natCast, Int.cast_natCast]
      have h1 : m = 100 * (m / 100) + 10 * (m % 100 / 10) := by
        have h2 := Nat.div_add_mod m 100
        have h3 := Nat.div_add_mod (m % 100) 10
        omega
      have hm : (m : ℚ) = 100 * ((m / 100 : ℕ) : ℚ) + 10 * ((m % 100 / 10 : ℕ) : ℚ) := by
        calc (m : ℚ) = ((100 * (m / 100) + 10 * (m % 100 / 10) : ℕ) : ℚ) := by rw [← h1]
          _ = _ := by push_cast; ring
      rw [hm]
      push_cast
      ring
    · rw [if_neg h0, if_neg h10,
        parseAmount_natChars_frac (m / 100) (10 * (m % 100 / 10) + m % 100 % 10) 2
          [digitChar (m % 100 / 10), digitChar (m % 100 % 10)]
          (parseFracAux_two _ _ (by omega) (by omega))]
      congr 1
      rw [qAdd_eq, Rat.mkRat_one, mkRat_eq_div']
      simp only [Int.ofNat_eq_natCast, Int.cast_natCast]
      have h1 : 10 * (m % 100 / 10) + m % 100 % 10 = m % 100 := Nat.div_add_mod (m % 100) 10
      have h2 : m = 100 * (m / 100) + m % 100 := (Nat.div_add_mod m 100).symm
      have hm : (m : ℚ) = 100 * ((m / 100 : ℕ) : ℚ) +
          ((10 * (m % 100 / 10) + m % 100 % 10 : ℕ) : ℚ) := by
        calc (m : ℚ) = ((100 * (m / 100) + (10 * (m % 100 / 10) + m % 100 % 10) : ℕ) : ℚ) := by
              rw [h1, ← h2]
          _ = _ := by push_cast; ring
      rw [hm]
      push_cast
      ring

theorem read_all_append (st : List Row) (r : Row)
    (hwf : ∀ row ∈ st, (parseAmount row.amount.toList).isSome) :
    read_all_records (st ++ [r]) = read_all_records st ++ read_all_records [r] := by
  induction st with
  | nil => rfl
  | cons a rest ih =>
    have ha := hwf a (by simp)
    obtain ⟨q, hq⟩ := Option.isSome_iff_exists.mp ha
    simp only [List.cons_append, read_all_records, hq, List.append_eq]
    rw [ih (fun row hr => hwf row (by simp [hr]))]
    simp [read_all_records]

theorem read_all_encode (rec : Record) (h : ∃ k : ℕ, rec.amount = (k : ℚ) / 100) :
    read_all_records [encodeRecord rec] = [rec] := by
  obtain ⟨k, hk⟩ := h
  have key : parseAmount (String.mk (renderAmount rec.amount)).toList = some rec.amount := by
    rw [show (String.mk (renderAmount rec.amount)).toList = renderAmount rec.amount from rfl,
      hk, parseAmount_renderAmount]
  simp only [read_all_records, encodeRecord, key]

/-- C1: the claim states that `extract(text, now)` never raises and in
particular succeeds on "yesterday" and "tomorrow" for every `now`,
including the first and last day of a month.  The code resolves these
keywords with `today.replace(day = today.day ± 1)`, so the embedded
extractor raises `ValueError` (models as `Except.error`) on exactly those
boundary days: "yesterday" on 2024-03-01 and "tomorrow" on 2024-01-31
both fail. -/
theorem C1_extract_raises_on_month_boundary :
    extract (("yesterday").toList) ⟨2024, 3, 1⟩ = Except.error () ∧
    extract (("tomorrow").toList) ⟨2024, 1, 31⟩ = Except.error () := by
  constructor
  · decide
  · decide

/-- C2 counterexample: classifying "How much loss did I have on 12
August?" does not produce a `date_query` (the date regex requires a
trailing year, which this question lacks); at the concrete reference date
2024-06-15 the kind is `type_query`. -/
theorem C2_counterexample :
    (parse_query (("how much loss did i have on 12 august?").toList) ⟨2024, 6, 15⟩).1 ≠
      QueryKind.date_query := by decide

/-- C2 amended: classifying "How much loss did I have on 12 August?"
yields kind `type_query` with `params.type = "loss"`, `params.month = 8`
and `params.year` the current year, for every value of `now` (the month
branch fires; the date branch does not because the question has no
year). -/
theorem C2_amended_classification (now : Date) :
    parse_query (("how much loss did i have on 12 august?").toList) now =
      (QueryKind.type_query,
        { month := some 8, year := some now.year, type := some "loss" }) := rfl

/-- C3 counterexample: classifying "Generate a monthly profit/loss
report" does not produce a `monthly_report` with empty params; at the
concrete reference date 2024-06-15 the kind is `summary` and
`params.type` is set. -/
theorem C3_counterexample :
    (parse_query (("generate a monthly profit/loss report").toList) ⟨2024, 6, 15⟩).1 ≠
      QueryKind.monthly_report := by decide

/-- C3 amended: classifying "Generate a monthly profit/loss report"
yields kind `summary` with `params.type = "profit"` for every `now`: no
month name or date appears, the report keyword rule fires, and the
profit keyword inside "profit/loss" sets the type filter. -/
theorem C3_amended_classification (now : Date) :
    parse_query (("generate a monthly profit/loss report").toList) now =
      (QueryKind.summary, { type := some "profit" }) := rfl

/-- C7 counterexample: on the text "$1,000" `extract_amount` returns
`1.0`, not `1000`: spoken-number normalization re-joins the tokens as
"$ 1 , 000", so the thousands separator is not removed and the first
amount match is the lone digit `1`. -/
theorem C7_counterexample :
    extract_amount (("$1,000").toList) = 1 ∧
    extract_amount (("$1,000").toList) ≠ 1000 := by
  constructor
  · decide
  · decide

/-- C7 amended: when no percentage construct is present, `extract_amount`
returns the value of the first `amount_pattern` match in the normalized
text; this equals `N` for an explicit `$N` token exactly when `N` has no
thousands separators or decimals and no digit run precedes it. -/
theorem C7_amended_first_amount (cs : List Char) (v : ℚ)
    (hnp : findPctG (normalize_number_words cs) = none)
    (hv : firstAmount (normalize_number_words cs) = some v) :
    extract_amount cs = v := by
  simp only [extract_amount, hnp, hv]

/-- C7 witness: the amended statement applied to the text "$500". -/
theorem C7_witness : extract_amount (("$500").toList) = 500 :=
  C7_amended_first_amount (("$500").toList) 500 (by decide) (by decide)

/-- C4: whenever the percentage construct matches (captured group `pg`)
and the base resolves — explicit invested/investment-of/base-of/
capital-of phrase first, else the first amount match in the normalized
text — `extract_amount` returns `base * pct / 100` rounded to two
decimal places. -/
theorem C4_percentage_of_base (cs : List Char) (pg : List Char) (b : ℚ)
    (hp : findPctG (normalize_number_words cs) = some pg)
    (hb : (match findInvested (normalize_number_words cs) with
           | some g => some (groupVal g)
           | none => firstAmount (normalize_number_words cs)) = some b) :
    extract_amount cs = round2 (b * (pctVal pg / 100)) := by
  simp only [extract_amount, hp, hb]
  rw [qMul_eq, qDiv_eq, Rat.mkRat_one]
  norm_num

/-- C4 witness: "profit is 10% of invested 1000" extracts the amount
`100.00`. -/
theorem C4_witness :
    extract_amount (("profit is 10% of invested 1000").toList) = 100 := by
  have h := C4_percentage_of_base (("profit is 10% of invested 1000").toList)
    (("10").toList) 1000 (by decide) (by decide)
  rw [h, show pctVal (("10").toList) = 10 from by decide,
    show ((1000 : ℚ) * ((10 : ℚ) / 100)) = ((100 : ℤ) : ℚ) from by norm_num]
  decide

theorem convertNumGo_spec (tokens : List (List Char)) :
    ∀ cur tot i,
      convertNumGo tokens cur tot i =
        (((numPrefix tokens).foldl specNumStep ⟨cur, tot⟩).total +
          ((numPrefix tokens).foldl specNumStep ⟨cur, tot⟩).running,
         i + (numPrefix tokens).length) := by
  induction tokens with
  | nil => intro cur tot i; simp [convertNumGo, numPrefix, Nat.add_comm]
  | cons w rest ih =>
    intro cur tot i
    simp only [convertNumGo, numPrefix, classifyNumWord]
    cases hu : unitsVal w with
    | some u =>
      simp only [List.foldl_cons, specNumStep, List.length_cons]
      rw [ih (cur + u) tot (i + 1)]
      exact Prod.ext rfl (by omega)
    | none =>
      cases ht : tensVal w with
      | some t =>
        simp only [List.foldl_cons, specNumStep, List.length_cons]
        rw [ih (cur + t) tot (i + 1)]
        exact Prod.ext rfl (by omega)
      | none =>
        by_cases hand : ciEqL w (("and").toList) = true
        · simp only [hand, if_true, List.foldl_cons, specNumStep, List.length_cons]
          rw [ih cur tot (i + 1)]
          exact Prod.ext rfl (by omega)
        · simp only [hand, if_false, Bool.false_eq_true]
          cases hs : scalesVal w with
          | some sc =>
            simp only [List.foldl_cons, specNumStep, List.length_cons]
            rw [ih 0 (tot + (if cur = 0 then 1 else cur) * sc) (i + 1)]
            exact Prod.ext rfl (by omega)
          | none =>
            simp [Nat.add_comm]

/-- C5: `convert_number_phrase` converts the maximal leading number-word
sequence exactly as the documented accumulator does (units and tens add
to a running value, a scale word multiplies the running value — 1 if
zero — adds to the total and resets, "and" is a no-op, final value =
total + trailing running value), and consumes exactly that sequence; in
particular "two lakh" normalizes to "200000" and "one hundred and five"
to "105". -/
theorem C5_spoken_number_accumulator :
    (∀ tokens : List (List Char),
      convert_number_phrase tokens =
        (specNumValue (numPrefix tokens), (numPrefix tokens).length)) ∧
    normalize_number_words (("two lakh").toList) = ("200000").toList ∧
    normalize_number_words (("one hundred and five").toList) = ("105").toList := by
  refine ⟨?_, by decide, by decide⟩
  intro tokens
  rw [convert_number_phrase, convertNumGo_spec tokens 0 0 0]
  simp [specNumValue]

/-- C6: both numeric-date resolvers (extractor and query analyzer) try
month/day/year first and fall back to day/month/year, with the two-digit
year window `< 50 → 20xx`, else `19xx`; the validity test agrees with
the plain calendar-date reading for every regex-producible year (at most
four digits); in particular "13/02/2024" resolves to `2024-02-13` in
both the extractor and the analyzer. -/
theorem C6_numeric_date_resolution (a b y : Nat) (hy : y ≤ 9999) :
    resolveNumericDateE a b y = resolveNumericDateQ a b y ∧
    resolveNumericDateE a b y =
      (if isRealDate (fixYear y) a b then some ⟨fixYear y, a, b⟩
       else if isRealDate (fixYear y) b a then some ⟨fixYear y, b, a⟩ else none) ∧
    extract_date (("13/02/2024").toList) ⟨2025, 6, 15⟩ = Except.ok ("2024-02-13") ∧
    (searchQueryDate (("13/02/2024").toList)).bind extract_date_from_match =
      some ("2024-02-13") := by
  refine ⟨rfl, ?_, by decide, by decide⟩
  have hy1 : 1 ≤ fixYear y := by unfold fixYear; split_ifs <;> omega
  have hy2 : fixYear y ≤ 9999 := by unfold fixYear; split_ifs <;> omega
  have hv : ∀ mm dd, validDate (fixYear y) mm dd = isRealDate (fixYear y) mm dd := by
    intro mm dd
    unfold validDate isRealDate
    simp [hy1, hy2]
  simp only [resolveNumericDateE, hv]

/-- C6 witness: the resolution property applied to the concrete token
13/02/2024. -/
theorem C6_witness :
    resolveNumericDateE 13 2 2024 = resolveNumericDateQ 13 2 2024 ∧
    resolveNumericDateE 13 2 2024 =
      (if isRealDate (fixYear 2024) 13 2 then some ⟨fixYear 2024, 13, 2⟩
       else if isRealDate (fixYear 2024) 2 13 then some ⟨fixYear 2024, 2, 13⟩ else none) ∧
    extract_date (("13/02/2024").toList) ⟨2025, 6, 15⟩ = Except.ok ("2024-02-13") ∧
    (searchQueryDate (("13/02/2024").toList)).bind extract_date_from_match =
      some ("2024-02-13") :=
  C6_numeric_date_resolution 13 2 2024 (by norm_num)

/-- C8: with duplicate checking on (the default), `save_record` returns
`false` exactly when the store already holds a record with the same key
— type compared case-insensitively, amount through its `str` rendering,
date and details verbatim — or when persistence fails, and whenever it
returns `false` the stored rows are unchanged.  (The embedding is total:
the source wraps the whole body in a `try/except` returning `False`, so
no exception escapes.) -/
theorem C8_save_record_status (st : List Row) (rec : Record) (ioFail : Bool) :
    ((save_record st rec true ioFail).1 = false ↔
      ((∃ e ∈ read_all_records st, recKey e = recKey rec) ∨ ioFail = true)) ∧
    ((save_record st rec true ioFail).1 = false →
      (save_record st rec true ioFail).2 = st) := by
  simp only [save_record, Bool.true_and]
  by_cases hdup : (read_all_records st).any (fun e => decide (recKey e = recKey rec))
  · rw [if_pos hdup]
    simp only [List.any_eq_true, decide_eq_true_eq] at hdup
    simp [hdup]
  · rw [if_neg hdup]
    simp only [List.any_eq_true, decide_eq_true_eq] at hdup
    cases ioFail
    · simp [hdup]
    · simp [hdup]

/-- C8 witness: saving into an empty store with a failing write returns
`false` and leaves the store unchanged. -/
theorem C8_witness :
    (save_record [] ⟨"loss", 50, "2024-03-05", "x"⟩ true true).1 = false ∧
    (save_record [] ⟨"loss", 50, "2024-03-05", "x"⟩ true true).2 = [] := by
  have h := C8_save_record_status [] ⟨"loss", 50, "2024-03-05", "x"⟩ true
  have hf : (save_record [] ⟨"loss", 50, "2024-03-05", "x"⟩ true true).1 = false :=
    h.1.mpr (Or.inr rfl)
  exact ⟨hf, h.2 hf⟩

/-- C9: a record whose amount has the two-decimal form extraction
produces, saved successfully into a store whose rows all decode, is
afterwards present in `read_all_records` field-for-field, with the
amount compared numerically. -/
theorem C9_save_then_read (st : List Row) (rec : Record) (chk ioFail : Bool)
    (st' : List Row)
    (hwf : ∀ row ∈ st, (parseAmount row.amount.toList).isSome)
    (hamt : ∃ k : ℕ, rec.amount = (k : ℚ) / 100)
    (hsave : save_record st rec chk ioFail = (true, st')) :
    ∃ r ∈ read_all_records st', r.type = rec.type ∧ r.amount = rec.amount ∧
      r.date = rec.date ∧ r.details = rec.details := by
  have hst : st' = st ++ [encodeRecord rec] := by
    unfold save_record at hsave
    split_ifs at hsave
    · exact absurd (congrArg Prod.fst hsave) (by simp)
    · exact absurd (congrArg Prod.fst hsave) (by simp)
    · exact (congrArg Prod.snd hsave).symm
  subst hst
  rw [read_all_append st _ hwf, read_all_encode rec hamt]
  exact ⟨rec, by simp, rfl, rfl, rfl, rfl⟩

/-- C9 witness: a concrete save of amount `500.00` into the empty store
is read back unchanged. -/
theorem C9_witness :
    ∃ r ∈ read_all_records
        (save_record [] ⟨"profit", 500, "2024-03-05", "sale"⟩ true false).2,
      r.type = "profit" ∧ r.amount = (500 : ℚ) ∧ r.date = "2024-03-05" ∧
        r.details = "sale" := by
  have h := C9_save_then_read [] ⟨"profit", 500, "2024-03-05", "sale"⟩ true false
    (save_record [] ⟨"profit", 500, "2024-03-05", "sale"⟩ true false).2
    (by intro row hrow; simp at hrow)
    ⟨50000, by norm_num⟩
    (by decide)
  exact h

/-- C10: whenever classification returns kind `type_query`, both
`params.month` (the mentioned month) and `params.year` (the mentioned or
current year) are set: the classifier never produces a month-unscoped
`type_query`, even though the type-report builder accepts absent
month/year. -/
theorem C10_type_query_scoped (q : List Char) (now : Date)
    (h : (parse_query q now).1 = QueryKind.type_query) :
    ∃ m, searchMonthNum q = some m ∧
      (parse_query q now).2.month = some m ∧
      (parse_query q now).2.year = some ((searchYear q).getD now.year) := by
  have hyear : (match searchYear q with
      | some y => y
      | none => now.year) = (searchYear q).getD now.year := by
    cases searchYear q <;> rfl
  cases hrel : searchRel q with
  | some rel => simp [parse_query, hrel] at h
  | none =>
    cases hm : searchMonthNum q with
    | none =>
      rcases hqd : searchQueryDate q with _ | dm
      · by_cases hak : searchWordList qAmountWords q
        · by_cases htd : searchWordList [['t', 'o', 'd', 'a', 'y']] q
          · simp [parse_query, hrel, hm, hqd, hak, htd] at h
          · simp [parse_query, hrel, hm, hqd, hak, htd] at h
        · by_cases hrk : searchWordList qReportWords q
          · by_cases hpk : searchWordList qProfitWords q
            · simp [parse_query, hrel, hm, hqd, hak, hrk, hpk] at h
            · by_cases hlk : searchWordList qLossWords q
              · simp [parse_query, hrel, hm, hqd, hak, hrk, hpk, hlk] at h
              · simp [parse_query, hrel, hm, hqd, hak, hrk, hpk, hlk] at h
          · simp [parse_query, hrel, hm, hqd, hak, hrk] at h
      · rcases hdm : extract_date_from_match dm with _ | ds
        · by_cases hak : searchWordList qAmountWords q
          · by_cases htd : searchWordList [['t', 'o', 'd', 'a', 'y']] q
            · simp [parse_query, hrel, hm, hqd, hdm, hak, htd] at h
            · simp [parse_query, hrel, hm, hqd, hdm, hak, htd] at h
          · by_cases hrk : searchWordList qReportWords q
            · by_cases hpk : searchWordList qProfitWords q
              · simp [parse_query, hrel, hm, hqd, hdm, hak, hrk, hpk] at h
              · by_cases hlk : searchWordList qLossWords q
                · simp [parse_query, hrel, hm, hqd, hdm, hak, hrk, hpk, hlk] at h
                · simp [parse_query, hrel, hm, hqd, hdm, hak, hrk, hpk, hlk] at h
            · simp [parse_query, hrel, hm, hqd, hdm, hak, hrk] at h
        · simp [parse_query, hrel, hm, hqd, hdm] at h
    | some m =>
      refine ⟨m, rfl, ?_⟩
      by_cases hpk : searchWordList qProfitWords q
      · rcases hqd : searchQueryDate q with _ | dm
        · simp [parse_query, hrel, hm, hqd, hpk, hyear]
        · rcases hdm : extract_date_from_match dm with _ | ds
          · simp [parse_query, hrel, hm, hqd, hdm, hpk, hyear]
          · simp [parse_query, hrel, hm, hqd, hdm, hpk] at h
      · by_cases hlk : searchWordList qLossWords q
        · rcases hqd : searchQueryDate q with _ | dm
          · simp [parse_query, hrel, hm, hqd, hpk, hlk, hyear]
          · rcases hdm : extract_date_from_match dm with _ | ds
            · simp [parse_query, hrel, hm, hqd, hdm, hpk, hlk, hyear]
            · simp [parse_query, hrel, hm, hqd, hdm, hpk, hlk] at h
        · rcases hqd : searchQueryDate q with _ | dm
          · simp [parse_query, hrel, hm, hqd, hpk, hlk] at h
          · rcases hdm : extract_date_from_match dm with _ | ds
            · simp [parse_query, hrel, hm, hqd, hdm, hpk, hlk] at h
            · simp [parse_query, hrel, hm, hqd, hdm, hpk, hlk] at h

/-- C10 witness: "show me all profit details for march" classifies as a
`type_query`, and the theorem yields its month and year parameters. -/
theorem C10_witness :
    ∃ m, searchMonthNum (("show me all profit details for march").toList) = some m ∧
      (parse_query (("show me all profit details for march").toList) ⟨2024, 6, 15⟩).2.month =
        some m ∧
      (parse_query (("show me all profit details for march").toList) ⟨2024, 6, 15⟩).2.year =
        some ((searchYear (("show me all profit details for march").toList)).getD 2024) :=
  C10_type_query_scoped (("show me all profit details for march").toList) ⟨2024, 6, 15⟩
    (by decide)
